import Mathlib

/-!
Verification of the core of the `pasta_curves` crate (Pallas / Vesta curve
cycle), as a shallow embedding of the three source files
`src/lib.rs`, `src/arithmetic/curves.rs` and `src/hash_to_curve2.rs`.

The concrete field and curve implementations (the `fields`, `curves`,
`hashtocurve` and `macros` modules) are not part of the sources being
verified; where a property depends on them, the missing part is modelled
from the specification and marked `Modelled from the spec:` in its
doc comment. Abstract components that `Hasher::call` merely composes
(`hash_to_field`, `map_to_curve_simple_swu`, point addition, `iso_map`)
are carried as fields of an operations bundle mirroring the trait bounds
`F: FieldExt`, `C: CurveExt<Base = F> + CurveConstants`,
`I: CurveExt<Base = F>`.
-/

namespace PastaCurves

/-- `subtle::Choice`, a constant-time boolean, modelled as `Bool`. -/
abbrev Choice := Bool

/-- The affine coordinates of a point on an elliptic curve:
`struct Coordinates<C: CurveAffine>` in `arithmetic/curves.rs`, with
fields `x: C::Base` and `y: C::Base`. The base field `C::Base` is the
type parameter `F`. -/
structure Coordinates (F : Type) where
  x : F
  y : F
  deriving DecidableEq

/-- `Coordinates::u`: returns the u-coordinate, i.e. the `x` field
(`arithmetic/curves.rs`, accessor `u`). -/
def Coordinates.u {F : Type} (c : Coordinates F) : F := c.x

/-- `Coordinates::v`: returns the v-coordinate, i.e. the `y` field
(`arithmetic/curves.rs`, accessor `v`). -/
def Coordinates.v {F : Type} (c : Coordinates F) : F := c.y

/-- `ConditionallySelectable for Coordinates<C>`: selects componentwise
via the base field's `conditional_select`, which is the parameter
`csel` (the base field is abstract here, as in the generic Rust impl). -/
def Coordinates.conditional_select {F : Type} (csel : F → F → Choice → F)
    (a b : Coordinates F) (choice : Choice) : Coordinates F :=
  { x := csel a.x b.x choice, y := csel a.y b.y choice }

/-- Modelled from the spec: the affine point representation of
`CurveAffine` (only the trait declaration is in the sources). Per the
spec's data model an affine point carries `x, y : F` and an `infinity`
bit, with `infinity` marking the identity. -/
structure AffinePoint (F : Type) where
  x : F
  y : F
  infinity : Bool
  deriving DecidableEq

/-- Modelled from the spec: `CurveAffine::coordinates` (only declared in
`arithmetic/curves.rs`): "Gets the coordinates of this point. Returns
None if this is the identity." -/
def AffinePoint.coordinates {F : Type} (A : AffinePoint F) :
    Option (Coordinates F) :=
  if A.infinity then none else some { x := A.x, y := A.y }

/-- Modelled from the spec: `CurveAffine::from_xy` (only declared in
`arithmetic/curves.rs`): "Obtains a point given (x, y), failing if it is
not on the curve." The curves have the form `y² = x³ + b` (coefficient
`a` is zero), so the check is the affine curve equation; failure is an
optional `none`, never an abort. -/
def from_xy {F : Type} [CommRing F] [DecidableEq F] (b x y : F) :
    Option (AffinePoint F) :=
  if y ^ 2 = x ^ 3 + b then some { x := x, y := y, infinity := false }
  else none

/-- Modelled from the spec: the Jacobian-projective point of `CurveExt`,
a triple `(X, Y, Z) ∈ F³` with `Z = 0` iff identity. -/
structure JacobianPoint (F : Type) where
  x : F
  y : F
  z : F
  deriving DecidableEq

/-- Modelled from the spec: `CurveExt::is_on_curve` for Jacobian
coordinates: returns `Y² == X³ + b·Z⁶` (or `Z = 0`). -/
def JacobianPoint.is_on_curve {F : Type} [CommRing F] [DecidableEq F]
    (b : F) (p : JacobianPoint F) : Choice :=
  decide (p.y ^ 2 = p.x ^ 3 + b * p.z ^ 6 ∨ p.z = 0)

/-- Modelled from the spec: `CurveExt::new_jacobian` (only declared in
`arithmetic/curves.rs`): "Obtains a point given Jacobian coordinates
X : Y : Z, failing if the coordinates are not on the curve." Failure is
an optional `none`, never an abort. -/
def new_jacobian {F : Type} [CommRing F] [DecidableEq F] (b x y z : F) :
    Option (JacobianPoint F) :=
  if JacobianPoint.is_on_curve b { x := x, y := y, z := z }
  then some { x := x, y := y, z := z } else none

/-- The capabilities that `Hasher::call` consumes through its trait
bounds `F: FieldExt`, `C: CurveExt<Base = F> + CurveConstants`,
`I: CurveExt<Base = F>`: the constants `CURVE_ID`, `THETA`, `Z`,
`ISOGENY_CONSTANTS` of `C`, `Field::zero` of `F`, the functions
`hash_to_field`, `map_to_curve_simple_swu`, `iso_map` of the
`hashtocurve` module (whose bodies are not among the sources, hence
abstract components here), point addition and `is_on_curve` on the
isogenous curve `I`. Messages are byte strings (`&[u8]` as `List Nat`),
domain prefixes are strings (`&str`). -/
structure HashToCurveOps (F C I : Type) where
  CURVE_ID : String
  THETA : F
  Z : F
  ISOGENY_CONSTANTS : List F
  zero : F
  hash_to_field : String → String → List Nat → F × F
  map_to_curve_simple_swu : F → F → F → I
  add : I → I → I
  is_on_curve : I → Choice
  iso_map : I → List F → C

/-- `struct Hasher<'a, Field, Curve, IsoCurve>` from `hash_to_curve2.rs`:
captures a borrowed domain prefix (Rust field `domain_prefix`); the
three `PhantomData` markers are zero-sized and carry no data. -/
structure Hasher where
  domainPrefix : String
  deriving DecidableEq

/-- `Hasher::new` from `hash_to_curve2.rs`. -/
def Hasher.new (dp : String) : Hasher :=
  { domainPrefix := dp }

/-- `Hasher::call` from `hash_to_curve2.rs` (the `Fn<(&[u8],)>` impl),
with the `hashtocurve` helpers and constants taken from `ops`:
```
let mut us = [Field::zero(); 2];
hashtocurve::hash_to_field(C::CURVE_ID, self.domain_prefix, message, &mut us);
let q0 = hashtocurve::map_to_curve_simple_swu::<F, C, I>(&us[0], C::THETA, C::Z);
let q1 = hashtocurve::map_to_curve_simple_swu::<F, C, I>(&us[1], C::THETA, C::Z);
let r = q0 + &q1;
debug_assert!(bool::from(r.is_on_curve()));
hashtocurve::iso_map::<F, C, I>(&r, &C::ISOGENY_CONSTANTS)
```
The `&mut us` out-parameter becomes the returned pair `us`; the
zero-initialisation of the array and the `debug_assert` are bound to
value-irrelevant names. -/
def Hasher.call {F C I : Type} (ops : HashToCurveOps F C I) (h : Hasher)
    (message : List Nat) : C :=
  let _us0 : F × F := (ops.zero, ops.zero)
  let us := ops.hash_to_field ops.CURVE_ID h.domainPrefix message
  let q0 := ops.map_to_curve_simple_swu us.1 ops.THETA ops.Z
  let q1 := ops.map_to_curve_simple_swu us.2 ops.THETA ops.Z
  let r := ops.add q0 q1
  let _assert : Choice := ops.is_on_curve r
  ops.iso_map r ops.ISOGENY_CONSTANTS

/-- `Hasher::call_once` from `hash_to_curve2.rs` (the `FnOnce` impl):
consumes the hasher and delegates to `call`. -/
def Hasher.call_once {F C I : Type} (ops : HashToCurveOps F C I)
    (h : Hasher) (message : List Nat) : C :=
  Hasher.call ops h message

/-- `Hasher::call_mut` from `hash_to_curve2.rs` (the `FnMut` impl): takes
`&mut self` but only delegates to `call`, which takes `&self`; the
hasher after the call is returned explicitly to make the (absence of)
mutation observable. -/
def Hasher.call_mut {F C I : Type} (ops : HashToCurveOps F C I)
    (h : Hasher) (message : List Nat) : C × Hasher :=
  (Hasher.call ops h message, h)

/-- Modelled from the spec: `CurveExt::hash_to_curve` (only declared in
`arithmetic/curves.rs`): the boxed factory that, given a domain prefix,
returns a callable bound to it — the callable is the `Hasher` of
`hash_to_curve2.rs`; the box only erases its type. -/
def hash_to_curve {F C I : Type} (ops : HashToCurveOps F C I)
    (dp : String) : List Nat → C :=
  fun message => Hasher.call ops (Hasher.new dp) message

/-- Modelled from the spec: `CurveExt::unboxed_hash_to_curve` (only
declared in `arithmetic/curves.rs`): "performs the same computation
without allocation", i.e. invokes the hasher directly. -/
def unboxed_hash_to_curve {F C I : Type} (ops : HashToCurveOps F C I)
    (dp : String) (message : List Nat) : C :=
  Hasher.call ops (Hasher.new dp) message

/-- A concrete instantiation of the operations bundle over `ZMod 7`,
used to exercise the generic definitions on computable inputs. -/
def toyOps : HashToCurveOps (ZMod 7) (ZMod 7) (ZMod 7) where
  CURVE_ID := "pallas"
  THETA := 3
  Z := 5
  ISOGENY_CONSTANTS := [1, 2, 3, 4, 5, 6, 0, 1, 2, 3, 4, 5, 6]
  zero := 0
  hash_to_field := fun cid dp msg =>
    ((cid.length + dp.length : ZMod 7), (msg.length : ZMod 7))
  map_to_curve_simple_swu := fun u th z => u + th * z
  add := fun p q => p + q
  is_on_curve := fun _ => true
  iso_map := fun r cs => r + cs.headD 0

/-- C1: for every operations bundle, domain prefix and message,
`Hasher::call` computes its result by deriving exactly two base-field
elements via `hash_to_field` (with the curve's `CURVE_ID` and the
hasher's domain prefix), mapping each through simplified SWU (with the
constants `THETA` and `Z`) to a point on the isogenous curve, summing
the two points there, and pushing the sum through `iso_map` (with
`ISOGENY_CONSTANTS`), in that order. -/
theorem hasher_call_pipeline {F C I : Type} (ops : HashToCurveOps F C I)
    (h : Hasher) (message : List Nat) :
    Hasher.call ops h message =
      ops.iso_map
        (ops.add
          (ops.map_to_curve_simple_swu
            (ops.hash_to_field ops.CURVE_ID h.domainPrefix message).1
            ops.THETA ops.Z)
          (ops.map_to_curve_simple_swu
            (ops.hash_to_field ops.CURVE_ID h.domainPrefix message).2
            ops.THETA ops.Z))
        ops.ISOGENY_CONSTANTS :=
  rfl

/-- C1 witness: the pipeline shape at a concrete instantiation. -/
theorem hasher_call_pipeline_witness :
    Hasher.call toyOps (Hasher.new "z.cash:test") [103] =
      toyOps.iso_map
        (toyOps.add
          (toyOps.map_to_curve_simple_swu
            (toyOps.hash_to_field toyOps.CURVE_ID
              (Hasher.new "z.cash:test").domainPrefix [103]).1
            toyOps.THETA toyOps.Z)
          (toyOps.map_to_curve_simple_swu
            (toyOps.hash_to_field toyOps.CURVE_ID
              (Hasher.new "z.cash:test").domainPrefix [103]).2
            toyOps.THETA toyOps.Z))
        toyOps.ISOGENY_CONSTANTS :=
  hasher_call_pipeline toyOps (Hasher.new "z.cash:test") [103]

/-- C3: the hasher is pure and deterministic: two hashers built with
equal domain prefixes, invoked on equal messages, return identical
points; and an invocation changes no observable state — the `FnMut`
entry point leaves the hasher unchanged and the `FnMut` / `FnOnce`
entry points return the very value `call` returns. -/
theorem hasher_pure_deterministic {F C I : Type}
    (ops : HashToCurveOps F C I) (h1 h2 : Hasher) (m1 m2 : List Nat)
    (hdp : h1.domainPrefix = h2.domainPrefix) (hm : m1 = m2) :
    Hasher.call ops h1 m1 = Hasher.call ops h2 m2 ∧
    (Hasher.call_mut ops h1 m1).2 = h1 ∧
    (Hasher.call_mut ops h1 m1).1 = Hasher.call ops h1 m1 ∧
    Hasher.call_once ops h1 m1 = Hasher.call ops h1 m1 := by
  have h12 : h1 = h2 := by
    cases h1; cases h2; simpa using hdp
  subst h12; subst hm
  exact ⟨rfl, rfl, rfl, rfl⟩

/-- C3 witness: determinism and statelessness at a concrete input. -/
theorem hasher_pure_deterministic_witness :
    Hasher.call toyOps (Hasher.new "z.cash:test") [103] =
      Hasher.call toyOps (Hasher.new "z.cash:test") [103] ∧
    (Hasher.call_mut toyOps (Hasher.new "z.cash:test") [103]).2 =
      Hasher.new "z.cash:test" ∧
    (Hasher.call_mut toyOps (Hasher.new "z.cash:test") [103]).1 =
      Hasher.call toyOps (Hasher.new "z.cash:test") [103] ∧
    Hasher.call_once toyOps (Hasher.new "z.cash:test") [103] =
      Hasher.call toyOps (Hasher.new "z.cash:test") [103] :=
  hasher_pure_deterministic toyOps (Hasher.new "z.cash:test")
    (Hasher.new "z.cash:test") [103] [103] rfl rfl

/-- C4: for every domain prefix and message, the unboxed hash-to-curve
variant returns exactly the point the boxed factory's callable returns:
`unboxed_hash_to_curve(dp, msg) == hash_to_curve(dp)(msg)`. -/
theorem unboxed_hash_to_curve_eq_boxed {F C I : Type}
    (ops : HashToCurveOps F C I) (dp : String) (message : List Nat) :
    unboxed_hash_to_curve ops dp message = (hash_to_curve ops dp) message :=
  rfl

/-- C4 witness: the boxed/unboxed agreement at a concrete input. -/
theorem unboxed_hash_to_curve_eq_boxed_witness :
    unboxed_hash_to_curve toyOps "z.cash:test" [103] =
      (hash_to_curve toyOps "z.cash:test") [103] :=
  unboxed_hash_to_curve_eq_boxed toyOps "z.cash:test" [103]

/-- C6: `from_xy(x, y)` returns a some value iff `(x, y)` satisfies the
affine curve equation `y² = x³ + b`, and `new_jacobian(X, Y, Z)` returns
a some value iff the Jacobian triple lies on the curve
(`Y² = X³ + b·Z⁶`, or `Z = 0`); both are total functions into an option
type, so off-curve coordinates yield `none`, never an abort. -/
theorem from_xy_new_jacobian_some_iff_on_curve {F : Type} [CommRing F]
    [DecidableEq F] (b x y X Y Z : F) :
    ((from_xy b x y).isSome = true ↔ y ^ 2 = x ^ 3 + b) ∧
    ((new_jacobian b X Y Z).isSome = true ↔
      (Y ^ 2 = X ^ 3 + b * Z ^ 6 ∨ Z = 0)) := by
  constructor
  · unfold from_xy
    split <;> simp_all
  · unfold new_jacobian JacobianPoint.is_on_curve
    split <;> simp_all

/-- C6 witness: over `ZMod 7` with `b = 5`, the point `(3, 2)` satisfies
`2² = 3³ + 5` and is accepted in affine and in Jacobian form. -/
theorem from_xy_new_jacobian_witness :
    ((from_xy (5 : ZMod 7) 3 2).isSome = true ↔
      (2 : ZMod 7) ^ 2 = 3 ^ 3 + 5) ∧
    ((new_jacobian (5 : ZMod 7) 3 2 1).isSome = true ↔
      ((2 : ZMod 7) ^ 2 = 3 ^ 3 + 5 * 1 ^ 6 ∨ (1 : ZMod 7) = 0)) :=
  from_xy_new_jacobian_some_iff_on_curve 5 3 2 3 2 1

/-- C7: `coordinates()` returns a some value holding the pair `{x, y}`
iff the affine point is not the identity; on the identity it returns
`none`. -/
theorem coordinates_some_iff_not_identity {F : Type} (A : AffinePoint F) :
    ((A.coordinates).isSome = true ↔ A.infinity = false) ∧
    (A.coordinates = none ↔ A.infinity = true) ∧
    (A.infinity = false → A.coordinates = some { x := A.x, y := A.y }) := by
  unfold AffinePoint.coordinates
  cases h : A.infinity <;> simp

/-- C7 witness: the non-identity point `(3, 2)` over `ZMod 7` exposes
its coordinate pair. -/
theorem coordinates_some_iff_not_identity_witness :
    (((⟨3, 2, false⟩ : AffinePoint (ZMod 7)).coordinates).isSome = true ↔
      false = false) ∧
    ((⟨3, 2, false⟩ : AffinePoint (ZMod 7)).coordinates = none ↔
      false = true) ∧
    (false = false →
      (⟨3, 2, false⟩ : AffinePoint (ZMod 7)).coordinates =
        some { x := 3, y := 2 }) :=
  coordinates_some_iff_not_identity (⟨3, 2, false⟩ : AffinePoint (ZMod 7))

/-- C10: for every `Coordinates` value `c`, the accessor pairs alias the
same field element — `c.u = c.x` and `c.v = c.y` — and
`conditional_select` selects the `x` and `y` components independently
via the base field's `conditional_select`. -/
theorem coordinates_aliases_and_conditional_select {F : Type}
    (c : Coordinates F) (csel : F → F → Choice → F)
    (a b : Coordinates F) (choice : Choice) :
    c.u = c.x ∧ c.v = c.y ∧
    Coordinates.conditional_select csel a b choice =
      { x := csel a.x b.x choice, y := csel a.y b.y choice } :=
  ⟨rfl, rfl, rfl⟩

/-- C10 witness: the aliases and componentwise selection over `ZMod 7`
with the select that returns its second argument on choice `1`. -/
theorem coordinates_aliases_and_conditional_select_witness :
    (⟨1, 2⟩ : Coordinates (ZMod 7)).u = (⟨1, 2⟩ : Coordinates (ZMod 7)).x ∧
    (⟨1, 2⟩ : Coordinates (ZMod 7)).v = (⟨1, 2⟩ : Coordinates (ZMod 7)).y ∧
    Coordinates.conditional_select (fun u v ch => if ch then v else u)
      (⟨3, 4⟩ : Coordinates (ZMod 7)) ⟨5, 6⟩ true =
      { x := if true then (5 : ZMod 7) else 3,
        y := if true then (6 : ZMod 7) else 4 } :=
  coordinates_aliases_and_conditional_select
    (⟨1, 2⟩ : Coordinates (ZMod 7)) (fun u v ch => if ch then v else u)
    ⟨3, 4⟩ ⟨5, 6⟩ true

end PastaCurves
